import Mathlib

/-!
Verification of the `World` component of the blob physics repository
(`source/world.js`) against its natural-language specification.

The JavaScript source is shallowly embedded: 2D vectors (`vec2` from the
glMatrix library used by the source) become pairs of real numbers, the
mutable `World` object becomes a structure transformed by pure functions,
and the in-place loops of `interact` and `step` become folds.  Float
arithmetic is modelled by exact real arithmetic.
-/

/-- Euclidean length of a 2D vector, as computed by glMatrix `vec2.length`:
`Math.sqrt(x*x + y*y)`. -/
noncomputable def vlen (v : ℝ × ℝ) : ℝ :=
  Real.sqrt (v.1 * v.1 + v.2 * v.2)

/-- glMatrix `vec2.normalize`: divides by the length when the squared
magnitude is positive, and returns the zero vector otherwise. -/
noncomputable def vnormalize (v : ℝ × ℝ) : ℝ × ℝ :=
  if 0 < v.1 * v.1 + v.2 * v.2 then
    (v.1 / Real.sqrt (v.1 * v.1 + v.2 * v.2),
     v.2 / Real.sqrt (v.1 * v.1 + v.2 * v.2))
  else (0, 0)

/-- The part of the external `Point` contract that `world.js` reads and
writes: a current position, a radius and an `interactive` flag. -/
structure Point where
  current : ℝ × ℝ
  radius : ℝ
  interactive : Bool

/-- Modelled from the spec: the `Constraint` implementation is external to
`world.js`; the World only constructs it from a config, stores it and calls
into it.  Its payload (the points it governs) is abstracted as two indices. -/
structure Constraint where
  i1 : ℕ
  i2 : ℕ

/-- The `World` object of `world.js`: domain extent, gravity, the owned
point and constraint collections, and the pixel-scale data (`scale_`,
`maxScale_`) recomputed by `setSize`.  Field names follow the source. -/
structure World where
  width : ℝ
  height : ℝ
  gravity : ℝ × ℝ
  points_ : List Point
  constraints_ : List Constraint
  scale_ : ℝ × ℝ
  maxScale_ : ℝ

/-- `World.DT = 16`, the fixed step duration. -/
def World.DT : ℝ := 16

/-- `World.MIN_DIMENSION = 10`, the fixed shorter-axis extent. -/
def World.MIN_DIMENSION : ℝ := 10

/-- `World.prototype.setSize`, as a pure function of the viewport
dimensions (`window.innerWidth` / `window.innerHeight` in the source):
branches on `innerWidth > innerHeight`, fixes the shorter domain axis at
`MIN_DIMENSION`, and recomputes `scale_` and `maxScale_`. -/
noncomputable def World.setSize (w : World) (innerWidth innerHeight : ℝ) : World :=
  if innerWidth > innerHeight then
    let width := World.MIN_DIMENSION * (innerWidth / innerHeight)
    let height := World.MIN_DIMENSION
    { w with
      width := width, height := height,
      maxScale_ := innerWidth / width,
      scale_ := (innerWidth / width, innerHeight / height) }
  else
    let width := World.MIN_DIMENSION
    let height := World.MIN_DIMENSION * (innerHeight / innerWidth)
    { w with
      width := width, height := height,
      maxScale_ := innerHeight / height,
      scale_ := (innerWidth / width, innerHeight / height) }

/-- The `World` constructor body: `gravity` is initialised to the zero
vector, the collections start empty, and `setSize` runs immediately.  The
`width`/`height`/`scale_`/`maxScale_` fields are `null` in the source until
`setSize` assigns them; the placeholder zeros here are overwritten by
`setSize` before any read. -/
noncomputable def World.init (innerWidth innerHeight : ℝ) : World :=
  World.setSize
    { width := 0, height := 0, gravity := (0, 0),
      points_ := [], constraints_ := [], scale_ := (0, 0), maxScale_ := 0 }
    innerWidth innerHeight

/-- Modelled from JS call semantics: the `World` constructor function
declares no parameters, so an argument passed at a `new World(g)` call site
is silently ignored and the body runs unchanged. -/
noncomputable def World.new (_g : ℝ × ℝ) (innerWidth innerHeight : ℝ) : World :=
  World.init innerWidth innerHeight

/-- `World.prototype.collidePoints_`: computes the vector between the two
centers and the signed gap `|between| - r1 - r2`; returns unchanged on
`gap >= 0`, otherwise pushes both points apart by half the overlap along
the normalized direction. -/
noncomputable def World.collidePoints (point1 point2 : Point) : Point × Point :=
  let between := (point1.current.1 - point2.current.1,
                  point1.current.2 - point2.current.2)
  let distance := vlen between - point1.radius - point2.radius
  if distance ≥ 0 then (point1, point2)
  else
    let direction := vnormalize between
    let adjustment := (direction.1 * (-distance / 2), direction.2 * (-distance / 2))
    ({ point1 with current := (point1.current.1 + adjustment.1,
                               point1.current.2 + adjustment.2) },
     { point2 with current := (point2.current.1 - adjustment.1,
                               point2.current.2 - adjustment.2) })

/-- The edge clamp at the end of `World.prototype.interact`: per axis, snap
to `radius` when below it and to `extent - radius` when above it. -/
noncomputable def World.clampPoint (width height : ℝ) (point : Point) : Point :=
  let r := point.radius
  let x := point.current.1
  let y := point.current.2
  { point with current :=
      ((if x < r then r else if x > width - r then width - r else x),
       (if y < r then r else if y > height - r then height - r else y)) }

/-- One iteration of the pairwise loop in `World.prototype.interact`, for
loop index `i`, acting on the point at index `j` (the `point` argument of
`interact`, which lives in `points_` at `j`).  The state carries the point
list together with a ghost log of the `(j, i)` pairs on which
`collidePoints_` was invoked.  The guard is exactly the source's
`point !== point2 && point2.interactive`. -/
noncomputable def World.interactStep (j : ℕ)
    (s : List Point × List (ℕ × ℕ)) (i : ℕ) : List Point × List (ℕ × ℕ) :=
  match s.1[j]?, s.1[i]? with
  | some point, some point2 =>
      if i ≠ j ∧ point2.interactive then
        let r := World.collidePoints point point2
        ((s.1.set j r.1).set i r.2, s.2 ++ [(j, i)])
      else s
  | _, _ => s

/-- The full pairwise loop of `World.prototype.interact`: `i` runs over
`0 .. points_.length - 1` (the length is read once, and `set` preserves
it).  Returns the updated list and the ghost log of `collidePoints_`
invocations. -/
noncomputable def World.interactLoop (j : ℕ) (pts : List Point) :
    List Point × List (ℕ × ℕ) :=
  (List.range pts.length).foldl (World.interactStep j) (pts, [])

/-- `World.prototype.interact` for the point stored at index `j`: the
pairwise collision loop followed by the edge clamp of that point. -/
noncomputable def World.interact (w : World) (j : ℕ) : World :=
  match (World.interactLoop j w.points_).1[j]? with
  | some point =>
      { w with points_ :=
          (((World.interactLoop j w.points_).1).set j
            (World.clampPoint w.width w.height point) : List Point) }
  | none => { w with points_ := (World.interactLoop j w.points_).1 }

/-- Events observable from `World.prototype.step`: a `satisfy(dt)` call on
the constraint at an index, or a `move(dt)` call on the point at an index. -/
inductive SimEvent where
  | satisfyCall (i : ℕ) (dt : ℝ)
  | moveCall (i : ℕ) (dt : ℝ)

/-- A world as `World.prototype.step` sees it: insertion-ordered lists of
constraint behaviours (`satisfy`) and point behaviours (`move`), each a
state transformer taking the `dt` argument.  The state type is abstract so
that instrumented test doubles can be plugged in. -/
structure StepWorld (σ : Type) where
  constraints_ : List (ℝ → σ → σ)
  points_ : List (ℝ → σ → σ)

/-- `World.prototype.step`: one pass over `constraints_` calling each with
`World.DT`, then one pass over `points_` calling each with `World.DT`. -/
def StepWorld.step {σ : Type} (w : StepWorld σ) (s : σ) : σ :=
  w.points_.foldl (fun t p => p World.DT t)
    (w.constraints_.foldl (fun t c => c World.DT t) s)

/-- `World.prototype.pointToPixels`: glMatrix `vec2.multiply` of
`point.current` with `scale_`, i.e. the componentwise product. -/
noncomputable def World.pointToPixels (w : World) (point : Point) : ℝ × ℝ :=
  (point.current.1 * w.scale_.1, point.current.2 * w.scale_.2)

/-- `World.prototype.valueToPixels`: multiplication by `maxScale_`. -/
noncomputable def World.valueToPixels (w : World) (value : ℝ) : ℝ :=
  value * w.maxScale_

/-- The configuration object a caller hands to `addPoint`: the fields the
external `Point` constructor consumes, plus the `world` slot that
`addPoint` itself assigns (absent — `undefined` — before the call). -/
structure PointConfig where
  world : Option World
  current : ℝ × ℝ
  radius : ℝ
  interactive : Bool

/-- Modelled from the spec: the configuration object for the external
`Constraint` constructor, with the `world` slot `addConstraint` assigns and
the governed-point payload abstracted as two indices. -/
structure ConstraintConfig where
  world : Option World
  i1 : ℕ
  i2 : ℕ

/-- `World.prototype.addPoint`: assigns `options.world = this` (mutating
the caller's object), constructs the `Point` from the updated options,
appends it to `points_` and returns it.  The result carries the updated
world, the mutated options object and the new point. -/
noncomputable def World.addPoint (w : World) (options : PointConfig) :
    World × PointConfig × Point :=
  let options2 := { options with world := some w }
  let point : Point :=
    { current := options2.current, radius := options2.radius,
      interactive := options2.interactive }
  ({ w with points_ := w.points_ ++ [point] }, options2, point)

/-- `World.prototype.addConstraint`: assigns `options.world = this`,
constructs the `Constraint`, appends it to `constraints_` and returns it. -/
noncomputable def World.addConstraint (w : World) (options : ConstraintConfig) :
    World × ConstraintConfig × Constraint :=
  let options2 := { options with world := some w }
  let constraint : Constraint := { i1 := options2.i1, i2 := options2.i2 }
  ({ w with constraints_ := w.constraints_ ++ [constraint] }, options2, constraint)

/-!  General-purpose lemmas about the embedded primitives. -/

/-- Evaluate a square root when the radicand is a known square. -/
theorem real_sqrt_of_eq_sq {a b : ℝ} (hb : 0 ≤ b) (h : a = b * b) :
    Real.sqrt a = b := by
  rw [h, Real.sqrt_mul_self hb]

/-- `vlen` on an explicit pair. -/
theorem vlen_pair (x y : ℝ) : vlen (x, y) = Real.sqrt (x * x + y * y) := rfl

/-- `vlen` of a nonnegatively scaled vector. -/
theorem vlen_scale (c x y : ℝ) (hc : 0 ≤ c) :
    vlen (c * x, c * y) = c * vlen (x, y) := by
  rw [vlen_pair, vlen_pair,
    show c * x * (c * x) + c * y * (c * y) = c * c * (x * x + y * y) by ring,
    Real.sqrt_mul (mul_self_nonneg c), Real.sqrt_mul_self hc]

/-- `vlen` is positive on a vector with positive squared magnitude. -/
theorem vlen_pos (x y : ℝ) (h : 0 < x * x + y * y) : 0 < vlen (x, y) := by
  rw [vlen_pair]; exact Real.sqrt_pos.mpr h

/-- `vnormalize` in the non-degenerate case divides by the length. -/
theorem vnormalize_eq (v : ℝ × ℝ) (h : 0 < v.1 * v.1 + v.2 * v.2) :
    vnormalize v = (v.1 / vlen v, v.2 / vlen v) := by
  unfold vnormalize vlen
  rw [if_pos h]

/-- `collidePoints_` only rewrites positions: radii and `interactive` flags
come through untouched in both branches. -/
theorem collidePoints_preserves_flags (p1 p2 : Point) :
    (World.collidePoints p1 p2).1.interactive = p1.interactive
    ∧ (World.collidePoints p1 p2).2.interactive = p2.interactive
    ∧ (World.collidePoints p1 p2).1.radius = p1.radius
    ∧ (World.collidePoints p1 p2).2.radius = p2.radius := by
  by_cases h : vlen (p1.current.1 - p2.current.1, p1.current.2 - p2.current.2)
      - p1.radius - p2.radius ≥ 0 <;>
    simp [World.collidePoints, h]

/-- Invariant preservation along a left fold. -/
theorem list_foldl_invariant {α β : Type} (f : β → α → β) (P : β → Prop)
    (l : List α) (init : β) (h0 : P init) (hstep : ∀ b a, P b → P (f b a)) :
    P (l.foldl f init) := by
  induction l generalizing init with
  | nil => exact h0
  | cons x xs ih => exact ih (f init x) (hstep init x h0)

/-- Writing back the element already stored at an index is a no-op. -/
theorem list_set_of_getElem {α : Type} :
    ∀ (l : List α) (n : ℕ) (a : α), l[n]? = some a → l.set n a = l := by
  intro l
  induction l with
  | nil => intro n a h; simp at h
  | cons x xs ih =>
    intro n a h
    cases n with
    | zero => simp at h; simp [h]
    | succ m => simp at h; simp [ih m a h]

/-!  Claim theorems. -/

/-- C8: two points whose center distance is at least the sum of their radii
are returned by `collidePoints_` completely unmodified. -/
theorem collidePoints_non_overlap_noop (p1 p2 : Point)
    (h : p1.radius + p2.radius
          ≤ vlen (p1.current.1 - p2.current.1, p1.current.2 - p2.current.2)) :
    World.collidePoints p1 p2 = (p1, p2) := by
  simp only [World.collidePoints]
  rw [if_pos (by linarith :
    vlen (p1.current.1 - p2.current.1, p1.current.2 - p2.current.2)
      - p1.radius - p2.radius ≥ 0)]

/-- Witness for C8 at radius-1 points placed at `(0,0)` and `(3,0)`. -/
theorem collidePoints_non_overlap_noop_witness :
    (⟨(0, 0), 1, true⟩ : Point).radius + (⟨(3, 0), 1, true⟩ : Point).radius
      ≤ vlen ((⟨(0, 0), 1, true⟩ : Point).current.1 - (⟨(3, 0), 1, true⟩ : Point).current.1,
              (⟨(0, 0), 1, true⟩ : Point).current.2 - (⟨(3, 0), 1, true⟩ : Point).current.2)
    ∧ World.collidePoints ⟨(0, 0), 1, true⟩ ⟨(3, 0), 1, true⟩
        = (⟨(0, 0), 1, true⟩, ⟨(3, 0), 1, true⟩) := by
  have h : (⟨(0, 0), 1, true⟩ : Point).radius + (⟨(3, 0), 1, true⟩ : Point).radius
      ≤ vlen ((⟨(0, 0), 1, true⟩ : Point).current.1 - (⟨(3, 0), 1, true⟩ : Point).current.1,
              (⟨(0, 0), 1, true⟩ : Point).current.2 - (⟨(3, 0), 1, true⟩ : Point).current.2) := by
    have hv : vlen ((0 : ℝ) - 3, (0 : ℝ) - 0) = 3 := by
      rw [vlen_pair]
      exact real_sqrt_of_eq_sq (by norm_num) (by norm_num)
    show (1 : ℝ) + 1 ≤ vlen ((0 : ℝ) - 3, (0 : ℝ) - 0)
    rw [hv]; norm_num
  exact ⟨h, collidePoints_non_overlap_noop _ _ h⟩

/-- C9: `pointToPixels` multiplies the point's position elementwise by the
scale vector, and `valueToPixels` multiplies by `maxScale_`. -/
theorem pointToPixels_componentwise (w : World) (point : Point) (x y sx sy : ℝ)
    (hp : point.current = (x, y)) (hs : w.scale_ = (sx, sy)) :
    w.pointToPixels point = (x * sx, y * sy)
    ∧ ∀ v : ℝ, w.valueToPixels v = v * w.maxScale_ := by
  refine ⟨?_, fun v => rfl⟩
  simp [World.pointToPixels, hp, hs]

/-- Witness for C9 with position `(4,5)` and scale `(2,3)`. -/
theorem pointToPixels_componentwise_witness :
    (⟨(4, 5), 1, true⟩ : Point).current = ((4 : ℝ), (5 : ℝ))
    ∧ (⟨10, 10, (0, 0), [], [], (2, 3), 60⟩ : World).scale_ = ((2 : ℝ), (3 : ℝ))
    ∧ World.pointToPixels ⟨10, 10, (0, 0), [], [], (2, 3), 60⟩ ⟨(4, 5), 1, true⟩
        = (4 * 2, 5 * 3)
    ∧ World.valueToPixels ⟨10, 10, (0, 0), [], [], (2, 3), 60⟩ 7
        = 7 * (⟨10, 10, (0, 0), [], [], (2, 3), 60⟩ : World).maxScale_ := by
  have h := pointToPixels_componentwise ⟨10, 10, (0, 0), [], [], (2, 3), 60⟩
    ⟨(4, 5), 1, true⟩ 4 5 2 3 rfl rfl
  exact ⟨rfl, rfl, h.1, h.2 7⟩

/-- C10: `addPoint` and `addConstraint` write the owning world into the
caller's config object (leaving the config's other fields intact), append
the new entity to the respective collection, and leave every other world
field unchanged. -/
theorem add_injects_world_backref (w : World) (pc : PointConfig) (cc : ConstraintConfig) :
    (w.addPoint pc).2.1.world = some w
    ∧ (w.addPoint pc).2.1.current = pc.current
    ∧ (w.addPoint pc).2.1.radius = pc.radius
    ∧ (w.addPoint pc).2.1.interactive = pc.interactive
    ∧ (w.addPoint pc).1.points_ = w.points_ ++ [(w.addPoint pc).2.2]
    ∧ (w.addPoint pc).1.width = w.width
    ∧ (w.addPoint pc).1.height = w.height
    ∧ (w.addPoint pc).1.gravity = w.gravity
    ∧ (w.addPoint pc).1.constraints_ = w.constraints_
    ∧ (w.addPoint pc).1.scale_ = w.scale_
    ∧ (w.addPoint pc).1.maxScale_ = w.maxScale_
    ∧ (w.addConstraint cc).2.1.world = some w
    ∧ (w.addConstraint cc).2.1.i1 = cc.i1
    ∧ (w.addConstraint cc).2.1.i2 = cc.i2
    ∧ (w.addConstraint cc).1.constraints_ = w.constraints_ ++ [(w.addConstraint cc).2.2]
    ∧ (w.addConstraint cc).1.points_ = w.points_
    ∧ (w.addConstraint cc).1.width = w.width
    ∧ (w.addConstraint cc).1.height = w.height
    ∧ (w.addConstraint cc).1.gravity = w.gravity
    ∧ (w.addConstraint cc).1.scale_ = w.scale_
    ∧ (w.addConstraint cc).1.maxScale_ = w.maxScale_ :=
  ⟨rfl, rfl, rfl, rfl, rfl, rfl, rfl, rfl, rfl, rfl, rfl, rfl, rfl, rfl, rfl, rfl,
   rfl, rfl, rfl, rfl, rfl⟩

/-- C6 counterexample: the source constructor declares no parameters, so a
gravity vector passed at the call site is ignored — the resulting world does
not carry the supplied gravity `(1,2)`. -/
theorem world_new_ignores_gravity_arg :
    (World.new (1, 2) 800 600).gravity ≠ (1, 2) := by
  have hg : (World.new (1, 2) 800 600).gravity = (0, 0) := by
    show (World.setSize _ 800 600).gravity = (0, 0)
    unfold World.setSize
    rw [if_pos (by norm_num : (800 : ℝ) > 600)]
  rw [hg]
  intro hc
  have := congrArg Prod.fst hc
  norm_num at this

/-- C6 (amended): the constructor ignores any gravity argument, always
initialises `gravity` to the zero vector and the collections to empty, and
immediately computes the sizing fields exactly as `setSize` would. -/
theorem world_constructor_zero_gravity (g : ℝ × ℝ) (iw ih : ℝ) (w0 : World) :
    (World.new g iw ih).gravity = (0, 0)
    ∧ (World.new g iw ih).points_ = []
    ∧ (World.new g iw ih).constraints_ = []
    ∧ (World.new g iw ih).width = (w0.setSize iw ih).width
    ∧ (World.new g iw ih).height = (w0.setSize iw ih).height
    ∧ (World.new g iw ih).scale_ = (w0.setSize iw ih).scale_
    ∧ (World.new g iw ih).maxScale_ = (w0.setSize iw ih).maxScale_ := by
  unfold World.new World.init World.setSize
  by_cases h : iw > ih <;> simp [h]

/-- C2 helper: folding an instrumented pass over a mapped index list logs
exactly one event per index, in order, each with the fixed `World.DT`. -/
theorem foldl_dt_log (g : ℕ → ℝ → SimEvent) (l : List ℕ) (init : List SimEvent) :
    (l.map fun i => fun dt s => s ++ [g i dt]).foldl (fun t f => f World.DT t) init
      = init ++ l.map fun i => g i World.DT := by
  induction l generalizing init with
  | nil => simp
  | cons x xs ih => simp [ih]

/-- C2: `step` performs a single pass invoking `satisfy(World.DT)` once on
each constraint in insertion order, and only afterwards a single pass
invoking `move(World.DT)` once on each point in insertion order — shown by
the complete call trace of an instrumented world. -/
theorem step_single_pass_trace (nc np : ℕ) :
    StepWorld.step
      { constraints_ := (List.range nc).map fun i => fun dt s => s ++ [SimEvent.satisfyCall i dt],
        points_ := (List.range np).map fun i => fun dt s => s ++ [SimEvent.moveCall i dt] }
      ([] : List SimEvent)
    = ((List.range nc).map fun i => SimEvent.satisfyCall i World.DT)
      ++ ((List.range np).map fun i => SimEvent.moveCall i World.DT) := by
  unfold StepWorld.step
  rw [foldl_dt_log SimEvent.satisfyCall, foldl_dt_log SimEvent.moveCall]
  simp

/-- C3: after `setSize` on a positive viewport, the smaller domain axis is
exactly `MIN_DIMENSION` and the domain aspect ratio equals the viewport
aspect ratio. -/
theorem setSize_min_dimension (w : World) (iw ih : ℝ) (hw : 0 < iw) (hh : 0 < ih) :
    min (w.setSize iw ih).width (w.setSize iw ih).height = World.MIN_DIMENSION
    ∧ max (w.setSize iw ih).width (w.setSize iw ih).height
        / min (w.setSize iw ih).width (w.setSize iw ih).height
      = max iw ih / min iw ih := by
  have hMD : (0 : ℝ) < World.MIN_DIMENSION := by norm_num [World.MIN_DIMENSION]
  unfold World.setSize
  by_cases h : iw > ih
  · simp only [if_pos h]
    have h1 : (1 : ℝ) ≤ iw / ih := (one_le_div hh).mpr h.le
    have hle : World.MIN_DIMENSION ≤ World.MIN_DIMENSION * (iw / ih) :=
      le_mul_of_one_le_right hMD.le h1
    constructor
    · simpa using min_eq_right hle
    · simp only [max_eq_left hle, min_eq_right hle, max_eq_left h.le, min_eq_right h.le]
      exact mul_div_cancel_left₀ _ hMD.ne'
  · simp only [if_neg h]
    have h' : iw ≤ ih := not_lt.mp h
    have h1 : (1 : ℝ) ≤ ih / iw := (one_le_div hw).mpr h'
    have hle : World.MIN_DIMENSION ≤ World.MIN_DIMENSION * (ih / iw) :=
      le_mul_of_one_le_right hMD.le h1
    constructor
    · simpa using min_eq_left hle
    · simp only [max_eq_right hle, min_eq_left hle, max_eq_right h', min_eq_left h']
      exact mul_div_cancel_left₀ _ hMD.ne'

/-- Witness for C3 at viewport 800x600. -/
theorem setSize_min_dimension_witness :
    (0 : ℝ) < 800 ∧ (0 : ℝ) < 600
    ∧ min ((⟨0, 0, (0, 0), [], [], (0, 0), 0⟩ : World).setSize 800 600).width
        ((⟨0, 0, (0, 0), [], [], (0, 0), 0⟩ : World).setSize 800 600).height
      = World.MIN_DIMENSION
    ∧ max ((⟨0, 0, (0, 0), [], [], (0, 0), 0⟩ : World).setSize 800 600).width
        ((⟨0, 0, (0, 0), [], [], (0, 0), 0⟩ : World).setSize 800 600).height
        / min ((⟨0, 0, (0, 0), [], [], (0, 0), 0⟩ : World).setSize 800 600).width
            ((⟨0, 0, (0, 0), [], [], (0, 0), 0⟩ : World).setSize 800 600).height
      = max (800 : ℝ) 600 / min (800 : ℝ) 600 := by
  have h := setSize_min_dimension ⟨0, 0, (0, 0), [], [], (0, 0), 0⟩ 800 600
    (by norm_num) (by norm_num)
  exact ⟨by norm_num, by norm_num, h.1, h.2⟩

/-- C4: after `setSize` on a positive viewport, the scale component along
any axis whose domain extent is `MIN_DIMENSION` equals `maxScale_`, and
`maxScale_` is the larger of the two axis scale factors. -/
theorem setSize_scale_consistent (w : World) (iw ih : ℝ) (hw : 0 < iw) (hh : 0 < ih) :
    ((w.setSize iw ih).width = World.MIN_DIMENSION →
        (w.setSize iw ih).scale_.1 = (w.setSize iw ih).maxScale_)
    ∧ ((w.setSize iw ih).height = World.MIN_DIMENSION →
        (w.setSize iw ih).scale_.2 = (w.setSize iw ih).maxScale_)
    ∧ (w.setSize iw ih).maxScale_
        = max (w.setSize iw ih).scale_.1 (w.setSize iw ih).scale_.2 := by
  have hMD : (0 : ℝ) < World.MIN_DIMENSION := by norm_num [World.MIN_DIMENSION]
  unfold World.setSize
  by_cases h : iw > ih
  · simp only [if_pos h]
    have key : iw / (World.MIN_DIMENSION * (iw / ih)) = ih / World.MIN_DIMENSION := by
      rw [div_eq_div_iff (by positivity) hMD.ne']
      field_simp
      ring
    refine ⟨fun _ => trivial, fun _ => key.symm, ?_⟩
    rw [key]
    exact (max_self _).symm
  · simp only [if_neg h]
    have key : ih / (World.MIN_DIMENSION * (ih / iw)) = iw / World.MIN_DIMENSION := by
      rw [div_eq_div_iff (by positivity) hMD.ne']
      field_simp
      ring
    refine ⟨fun _ => key.symm, fun _ => trivial, ?_⟩
    rw [key]
    exact (max_self _).symm

/-- Witness for C4 at viewport 800x600. -/
theorem setSize_scale_consistent_witness :
    (0 : ℝ) < 800 ∧ (0 : ℝ) < 600
    ∧ (((⟨0, 0, (0, 0), [], [], (0, 0), 0⟩ : World).setSize 800 600).height
        = World.MIN_DIMENSION →
        ((⟨0, 0, (0, 0), [], [], (0, 0), 0⟩ : World).setSize 800 600).scale_.2
          = ((⟨0, 0, (0, 0), [], [], (0, 0), 0⟩ : World).setSize 800 600).maxScale_)
    ∧ ((⟨0, 0, (0, 0), [], [], (0, 0), 0⟩ : World).setSize 800 600).maxScale_
        = max ((⟨0, 0, (0, 0), [], [], (0, 0), 0⟩ : World).setSize 800 600).scale_.1
            ((⟨0, 0, (0, 0), [], [], (0, 0), 0⟩ : World).setSize 800 600).scale_.2 := by
  have h := setSize_scale_consistent ⟨0, 0, (0, 0), [], [], (0, 0), 0⟩ 800 600
    (by norm_num) (by norm_num)
  exact ⟨by norm_num, by norm_num, h.2.1, h.2.2⟩

/-- C1 helper: explicit form of the overlap branch of `collidePoints_`. -/
theorem collidePoints_of_overlap (p1 p2 : Point)
    (hmag : 0 < (p1.current.1 - p2.current.1) * (p1.current.1 - p2.current.1)
            + (p1.current.2 - p2.current.2) * (p1.current.2 - p2.current.2))
    (hd : vlen (p1.current.1 - p2.current.1, p1.current.2 - p2.current.2)
          - p1.radius - p2.radius < 0) :
    World.collidePoints p1 p2 =
      ({ p1 with current :=
          (p1.current.1 + (p1.current.1 - p2.current.1)
              / vlen (p1.current.1 - p2.current.1, p1.current.2 - p2.current.2)
              * (-(vlen (p1.current.1 - p2.current.1, p1.current.2 - p2.current.2)
                    - p1.radius - p2.radius) / 2),
           p1.current.2 + (p1.current.2 - p2.current.2)
              / vlen (p1.current.1 - p2.current.1, p1.current.2 - p2.current.2)
              * (-(vlen (p1.current.1 - p2.current.1, p1.current.2 - p2.current.2)
                    - p1.radius - p2.radius) / 2)) },
       { p2 with current :=
          (p2.current.1 - (p1.current.1 - p2.current.1)
              / vlen (p1.current.1 - p2.current.1, p1.current.2 - p2.current.2)
              * (-(vlen (p1.current.1 - p2.current.1, p1.current.2 - p2.current.2)
                    - p1.radius - p2.radius) / 2),
           p2.current.2 - (p1.current.2 - p2.current.2)
              / vlen (p1.current.1 - p2.current.1, p1.current.2 - p2.current.2)
              * (-(vlen (p1.current.1 - p2.current.1, p1.current.2 - p2.current.2)
                    - p1.radius - p2.radius) / 2)) }) := by
  simp only [World.collidePoints]
  rw [if_neg (not_le.mpr hd), vnormalize_eq _ (by simpa using hmag)]

/-- C1 helper: pushing two centers apart by half the (negative) gap along
the normalized direction makes their distance exactly the radius sum. -/
theorem collide_push_arith (x1 y1 x2 y2 r1 r2 : ℝ)
    (hmag : 0 < (x1 - x2) * (x1 - x2) + (y1 - y2) * (y1 - y2))
    (hover : vlen (x1 - x2, y1 - y2) < r1 + r2) :
    vlen ((x1 + (x1 - x2) / vlen (x1 - x2, y1 - y2)
             * (-(vlen (x1 - x2, y1 - y2) - r1 - r2) / 2))
           - (x2 - (x1 - x2) / vlen (x1 - x2, y1 - y2)
             * (-(vlen (x1 - x2, y1 - y2) - r1 - r2) / 2)),
          (y1 + (y1 - y2) / vlen (x1 - x2, y1 - y2)
             * (-(vlen (x1 - x2, y1 - y2) - r1 - r2) / 2))
           - (y2 - (y1 - y2) / vlen (x1 - x2, y1 - y2)
             * (-(vlen (x1 - x2, y1 - y2) - r1 - r2) / 2)))
      = r1 + r2 := by
  have hL : 0 < vlen (x1 - x2, y1 - y2) := vlen_pos _ _ hmag
  set L := vlen (x1 - x2, y1 - y2) with hLdef
  have hL0 : L ≠ 0 := hL.ne'
  have hc : 0 ≤ (r1 + r2) / L := div_nonneg (by linarith) hL.le
  have e1 : (x1 + (x1 - x2) / L * (-(L - r1 - r2) / 2))
      - (x2 - (x1 - x2) / L * (-(L - r1 - r2) / 2))
      = (r1 + r2) / L * (x1 - x2) := by
    field_simp
    ring
  have e2 : (y1 + (y1 - y2) / L * (-(L - r1 - r2) / 2))
      - (y2 - (y1 - y2) / L * (-(L - r1 - r2) / 2))
      = (r1 + r2) / L * (y1 - y2) := by
    field_simp
    ring
  rw [e1, e2, vlen_scale _ _ _ hc, ← hLdef, div_mul_cancel₀ _ hL0]

/-- C1: on overlapping points with distinct centers, `collidePoints_`
pushes the two points apart equally (opposite displacements along the
center line, so the midpoint is unchanged) until their center distance is
exactly the sum of the radii. -/
theorem collidePoints_resolves_overlap (p1 p2 : Point)
    (hne : p1.current ≠ p2.current)
    (hover : vlen (p1.current.1 - p2.current.1, p1.current.2 - p2.current.2)
              < p1.radius + p2.radius) :
    vlen ((World.collidePoints p1 p2).1.current.1 - (World.collidePoints p1 p2).2.current.1,
          (World.collidePoints p1 p2).1.current.2 - (World.collidePoints p1 p2).2.current.2)
      = p1.radius + p2.radius
    ∧ (World.collidePoints p1 p2).1.current.1 + (World.collidePoints p1 p2).2.current.1
      = p1.current.1 + p2.current.1
    ∧ (World.collidePoints p1 p2).1.current.2 + (World.collidePoints p1 p2).2.current.2
      = p1.current.2 + p2.current.2
    ∧ ∃ t : ℝ,
        (World.collidePoints p1 p2).1.current.1 - p1.current.1
          = t * (p1.current.1 - p2.current.1)
        ∧ (World.collidePoints p1 p2).1.current.2 - p1.current.2
          = t * (p1.current.2 - p2.current.2)
        ∧ (World.collidePoints p1 p2).2.current.1 - p2.current.1
          = -t * (p1.current.1 - p2.current.1)
        ∧ (World.collidePoints p1 p2).2.current.2 - p2.current.2
          = -t * (p1.current.2 - p2.current.2) := by
  have hmag : 0 < (p1.current.1 - p2.current.1) * (p1.current.1 - p2.current.1)
      + (p1.current.2 - p2.current.2) * (p1.current.2 - p2.current.2) := by
    rcases eq_or_ne p1.current.1 p2.current.1 with hx | hx
    · have hy : p1.current.2 ≠ p2.current.2 := by
        intro hy
        exact hne (Prod.ext hx hy)
      have := mul_self_pos.mpr (sub_ne_zero.mpr hy)
      nlinarith [mul_self_nonneg (p1.current.1 - p2.current.1)]
    · have := mul_self_pos.mpr (sub_ne_zero.mpr hx)
      nlinarith [mul_self_nonneg (p1.current.2 - p2.current.2)]
  have hL : 0 < vlen (p1.current.1 - p2.current.1, p1.current.2 - p2.current.2) :=
    vlen_pos _ _ hmag
  have hL0 : vlen (p1.current.1 - p2.current.1, p1.current.2 - p2.current.2) ≠ 0 :=
    hL.ne'
  have hd : vlen (p1.current.1 - p2.current.1, p1.current.2 - p2.current.2)
      - p1.radius - p2.radius < 0 := by linarith
  rw [collidePoints_of_overlap p1 p2 hmag hd]
  dsimp only
  refine ⟨collide_push_arith _ _ _ _ _ _ hmag hover, by ring, by ring, ?_⟩
  refine ⟨-(vlen (p1.current.1 - p2.current.1, p1.current.2 - p2.current.2)
      - p1.radius - p2.radius)
      / (2 * vlen (p1.current.1 - p2.current.1, p1.current.2 - p2.current.2)),
    ?_, ?_, ?_, ?_⟩
  all_goals field_simp
  all_goals ring

/-- Witness for C1 at the spec's own instance: radius-1 points at `(0,0)`
and `(1.5,0)`; afterwards the center distance is exactly `2` and the sum of
each coordinate (twice the midpoint) is unchanged. -/
theorem collidePoints_resolves_overlap_witness :
    (⟨(0, 0), 1, true⟩ : Point).current ≠ (⟨(1.5, 0), 1, true⟩ : Point).current
    ∧ vlen ((⟨(0, 0), 1, true⟩ : Point).current.1 - (⟨(1.5, 0), 1, true⟩ : Point).current.1,
            (⟨(0, 0), 1, true⟩ : Point).current.2 - (⟨(1.5, 0), 1, true⟩ : Point).current.2)
        < (⟨(0, 0), 1, true⟩ : Point).radius + (⟨(1.5, 0), 1, true⟩ : Point).radius
    ∧ vlen ((World.collidePoints ⟨(0, 0), 1, true⟩ ⟨(1.5, 0), 1, true⟩).1.current.1
              - (World.collidePoints ⟨(0, 0), 1, true⟩ ⟨(1.5, 0), 1, true⟩).2.current.1,
            (World.collidePoints ⟨(0, 0), 1, true⟩ ⟨(1.5, 0), 1, true⟩).1.current.2
              - (World.collidePoints ⟨(0, 0), 1, true⟩ ⟨(1.5, 0), 1, true⟩).2.current.2)
        = 2
    ∧ (World.collidePoints ⟨(0, 0), 1, true⟩ ⟨(1.5, 0), 1, true⟩).1.current.1
        + (World.collidePoints ⟨(0, 0), 1, true⟩ ⟨(1.5, 0), 1, true⟩).2.current.1
      = 1.5
    ∧ (World.collidePoints ⟨(0, 0), 1, true⟩ ⟨(1.5, 0), 1, true⟩).1.current.2
        + (World.collidePoints ⟨(0, 0), 1, true⟩ ⟨(1.5, 0), 1, true⟩).2.current.2
      = 0 := by
  have hne : (⟨(0, 0), 1, true⟩ : Point).current ≠ (⟨(1.5, 0), 1, true⟩ : Point).current := by
    intro hc
    have := congrArg Prod.fst hc
    norm_num at this
  have hover : vlen ((⟨(0, 0), 1, true⟩ : Point).current.1 - (⟨(1.5, 0), 1, true⟩ : Point).current.1,
      (⟨(0, 0), 1, true⟩ : Point).current.2 - (⟨(1.5, 0), 1, true⟩ : Point).current.2)
      < (⟨(0, 0), 1, true⟩ : Point).radius + (⟨(1.5, 0), 1, true⟩ : Point).radius := by
    show vlen ((0 : ℝ) - 1.5, (0 : ℝ) - 0) < (1 : ℝ) + 1
    rw [vlen_pair, real_sqrt_of_eq_sq (b := 1.5) (by norm_num) (by norm_num)]
    norm_num
  have h := collidePoints_resolves_overlap ⟨(0, 0), 1, true⟩ ⟨(1.5, 0), 1, true⟩ hne hover
  refine ⟨hne, hover, ?_, ?_, ?_⟩
  · have h1 := h.1
    norm_num at h1 ⊢
    exact h1
  · have h2 := h.2.1
    norm_num at h2 ⊢
    exact h2
  · have h3 := h.2.2.1
    norm_num at h3 ⊢
    exact h3

/-- C7: `interact` on a point already inside the domain bounds, in a world
where every other point is non-interactive, leaves the point's position
unchanged, and a second `interact` is a no-op. -/
theorem interact_in_bounds_noop (w : World) (j : ℕ) (p : Point)
    (hp : w.points_[j]? = some p)
    (hx1 : p.radius ≤ p.current.1) (hx2 : p.current.1 ≤ w.width - p.radius)
    (hy1 : p.radius ≤ p.current.2) (hy2 : p.current.2 ≤ w.height - p.radius)
    (hothers : ∀ i q, i ≠ j → w.points_[i]? = some q → q.interactive = false) :
    ((w.interact j).points_[j]?).map Point.current = (w.points_[j]?).map Point.current
    ∧ (w.interact j).interact j = w.interact j := by
  have hloop : (World.interactLoop j w.points_).1 = w.points_ := by
    unfold World.interactLoop
    refine list_foldl_invariant _
      (fun s : List Point × List (ℕ × ℕ) => s.1 = w.points_) _ _ rfl ?_
    intro s i hs
    unfold World.interactStep
    split
    · rename_i point point2 hj' hi'
      by_cases hg : i ≠ j ∧ point2.interactive
      · exfalso
        have hfalse : point2.interactive = false := by
          refine hothers i point2 hg.1 ?_
          rw [← hs]
          exact hi'
        rw [hfalse] at hg
        simp at hg
      · rw [if_neg hg]
        exact hs
    · exact hs
  have hclamp : World.clampPoint w.width w.height p = p := by
    simp only [World.clampPoint]
    rw [if_neg (not_lt.mpr hx1), if_neg (not_lt.mpr hx2),
      if_neg (not_lt.mpr hy1), if_neg (not_lt.mpr hy2)]
  have hfix : w.interact j = w := by
    unfold World.interact
    rw [hloop, hp]
    show { w with points_ := w.points_.set j (World.clampPoint w.width w.height p) } = w
    rw [hclamp, list_set_of_getElem w.points_ j p hp]
  constructor
  · rw [hfix]
  · rw [hfix]
    exact hfix

/-- Witness for C7: a single radius-1 point at `(5,5)` in a 10x10 world. -/
theorem interact_in_bounds_noop_witness :
    ((⟨10, 10, (0, 0), [⟨(5, 5), 1, true⟩], [], (1, 1), 1⟩ : World).points_[0]?
        = some ⟨(5, 5), 1, true⟩)
    ∧ (((⟨10, 10, (0, 0), [⟨(5, 5), 1, true⟩], [], (1, 1), 1⟩ : World).interact 0).points_[0]?).map
          Point.current
        = ((⟨10, 10, (0, 0), [⟨(5, 5), 1, true⟩], [], (1, 1), 1⟩ : World).points_[0]?).map
            Point.current
    ∧ ((⟨10, 10, (0, 0), [⟨(5, 5), 1, true⟩], [], (1, 1), 1⟩ : World).interact 0).interact 0
        = (⟨10, 10, (0, 0), [⟨(5, 5), 1, true⟩], [], (1, 1), 1⟩ : World).interact 0 := by
  have hothers : ∀ i q, i ≠ 0 →
      (⟨10, 10, (0, 0), [⟨(5, 5), 1, true⟩], [], (1, 1), 1⟩ : World).points_[i]? = some q →
      q.interactive = false := by
    intro i q hi hq
    cases i with
    | zero => exact absurd rfl hi
    | succ n => simp at hq
  have h := interact_in_bounds_noop ⟨10, 10, (0, 0), [⟨(5, 5), 1, true⟩], [], (1, 1), 1⟩ 0
    ⟨(5, 5), 1, true⟩ rfl (by norm_num) (by norm_num) (by norm_num) (by norm_num) hothers
  exact ⟨rfl, h.1, h.2⟩

/-- C5 (amended): during `interact` on the point at index `j`,
`collidePoints_` is invoked on a pair `(j, i)` only when `i` is a
different index whose point has `interactive = true`; the receiving
point's own flag is not consulted. -/
theorem interact_collides_only_with_interactive_others (pts : List Point) (j a b : ℕ)
    (hmem : (a, b) ∈ (World.interactLoop j pts).2) :
    a = j ∧ b ≠ j ∧ (pts[b]?).map Point.interactive = some true := by
  have hstep : ∀ (s : List Point × List (ℕ × ℕ)) (i : ℕ),
      ((∀ k : ℕ, (s.1[k]?).map Point.interactive = (pts[k]?).map Point.interactive)
        ∧ ∀ q ∈ s.2, q.1 = j ∧ q.2 ≠ j
            ∧ (pts[q.2]?).map Point.interactive = some true) →
      ((∀ k : ℕ, ((World.interactStep j s i).1[k]?).map Point.interactive
            = (pts[k]?).map Point.interactive)
        ∧ ∀ q ∈ (World.interactStep j s i).2, q.1 = j ∧ q.2 ≠ j
            ∧ (pts[q.2]?).map Point.interactive = some true) := by
    intro s i hs
    obtain ⟨hflags, hcalls⟩ := hs
    unfold World.interactStep
    split
    · rename_i point point2 hj' hi'
      by_cases hg : i ≠ j ∧ point2.interactive
      · rw [if_pos hg]
        dsimp only
        have hjlen : j < s.1.length := (List.getElem?_eq_some_iff.mp hj').1
        have hilen : i < s.1.length := (List.getElem?_eq_some_iff.mp hi').1
        constructor
        · intro k
          by_cases hki : k = i
          · subst hki
            rw [List.getElem?_set_self (by simpa using hilen), ← hflags k, hi']
            simp [(collidePoints_preserves_flags point point2).2.1]
          · by_cases hkj : k = j
            · subst hkj
              rw [List.getElem?_set_ne (fun hik => hki hik.symm),
                List.getElem?_set_self hjlen, ← hflags k, hj']
              simp [(collidePoints_preserves_flags point point2).1]
            · rw [List.getElem?_set_ne (fun hik => hki hik.symm),
                List.getElem?_set_ne (fun hjk => hkj hjk.symm)]
              exact hflags k
        · intro q hq
          rcases List.mem_append.mp hq with hq | hq
          · exact hcalls q hq
          · have hq' : q = (j, i) := by simpa using hq
            subst hq'
            refine ⟨rfl, hg.1, ?_⟩
            rw [← hflags i, hi']
            simp [hg.2]
      · rw [if_neg hg]
        exact ⟨hflags, hcalls⟩
    · exact ⟨hflags, hcalls⟩
  have key := list_foldl_invariant (World.interactStep j)
    (fun s : List Point × List (ℕ × ℕ) =>
      (∀ k : ℕ, (s.1[k]?).map Point.interactive = (pts[k]?).map Point.interactive)
      ∧ ∀ q ∈ s.2, q.1 = j ∧ q.2 ≠ j
          ∧ (pts[q.2]?).map Point.interactive = some true)
    (List.range pts.length) (pts, [])
    ⟨fun k => rfl, by simp⟩ hstep
  unfold World.interactLoop at hmem
  exact key.2 (a, b) hmem

/-- Witness for C5's amended theorem: with two interactive points,
`interact` on index `0` invokes `collidePoints_` on the pair `(0, 1)`, and
the theorem's conclusion holds there. -/
theorem interact_collides_only_with_interactive_others_witness :
    ((0, 1) : ℕ × ℕ) ∈ (World.interactLoop 0 [⟨(0, 0), 1, true⟩, ⟨(5, 5), 1, true⟩]).2
    ∧ ((0 : ℕ) = 0 ∧ (1 : ℕ) ≠ 0
        ∧ (([⟨(0, 0), 1, true⟩, ⟨(5, 5), 1, true⟩] : List Point)[1]?).map Point.interactive
          = some true) := by
  have hmem : ((0, 1) : ℕ × ℕ)
      ∈ (World.interactLoop 0 [⟨(0, 0), 1, true⟩, ⟨(5, 5), 1, true⟩]).2 := by
    have : (World.interactLoop 0 [⟨(0, 0), 1, true⟩, ⟨(5, 5), 1, true⟩]).2 = [(0, 1)] := rfl
    rw [this]
    exact List.mem_singleton.mpr rfl
  exact ⟨hmem,
    interact_collides_only_with_interactive_others [⟨(0, 0), 1, true⟩, ⟨(5, 5), 1, true⟩]
      0 0 1 hmem⟩

/-- C5 counterexample: `interact` does not require the receiving point to
be interactive — with a non-interactive point at index `0` and an
interactive one at index `1`, `interact 0` still invokes `collidePoints_`
on the pair `(0, 1)`, so it is false that both participants of every
`collidePoints_` invocation are interactive. -/
theorem interact_collides_with_noninteractive_receiver :
    ¬ ∀ (pts : List Point) (j a b : ℕ), (a, b) ∈ (World.interactLoop j pts).2 →
        ((pts[a]?).map Point.interactive = some true
         ∧ (pts[b]?).map Point.interactive = some true) := by
  intro hclaim
  have hmem : ((0, 1) : ℕ × ℕ)
      ∈ (World.interactLoop 0 [⟨(0, 0), 1, false⟩, ⟨(0.5, 0), 1, true⟩]).2 := by
    have : (World.interactLoop 0 [⟨(0, 0), 1, false⟩, ⟨(0.5, 0), 1, true⟩]).2 = [(0, 1)] := rfl
    rw [this]
    exact List.mem_singleton.mpr rfl
  have h := (hclaim [⟨(0, 0), 1, false⟩, ⟨(0.5, 0), 1, true⟩] 0 0 1 hmem).1
  simp at h
